import Mathlib

/-!
A shallow embedding, in Lean 4, of the log-line rendering engine of the
fancylog package (fancylog.go, color.go, and the HTTP sub-logger), together
with theorems checking the behaviour its specification describes.

Modelling conventions:
* Go byte strings are modelled as Lean `String`; Go `len(s)` (a byte count)
  is `golen s`, the sum of the UTF-8 sizes of the characters.
* The process-wide alignment registry (`maxNameSize`, `maxPrefixSize`) is an
  explicit `AlignState` value threaded through constructors and renders.
* Go maps (`map[string]any`, `map[Level]Prefix`, ...) are association lists
  in an arbitrary order; the order of the list stands for the map's (non
  deterministic) iteration order, and a Go map never holds a key twice.
* `fmt.Sprintf("%+v", x)` applied to a field value is opaque to the claims
  checked here, so a field value carries the string that formatter produces.
* Writing to a sink is modelled by returning the written bytes together with
  the sink selector (`true` = error sink); a render that returns `none`
  wrote nothing to either sink and acquired no buffer (the quiet early
  return happens before `NewColorLogger`).
* `terminal.IsTerminal(out.Fd())` in the constructors is an input bit.
* The wall clock (`getTimeFunc`) and the runtime stack (`getStackTrace`)
  are inputs: a render takes the formatted timestamp and stack as strings.
-/

namespace FancyLog

/-- color.go `Color`: an ANSI escape byte sequence. -/
abbrev Color := String

/-- color.go `colorOff`. -/
def colorOff : Color := "\u001B[0m"

/-- color.go `ColorRed`. -/
def ColorRed : Color := "\u001B[0;31m"

/-- color.go `ColorGreen`. -/
def ColorGreen : Color := "\u001B[0;32m"

/-- color.go `ColorOrange`. -/
def ColorOrange : Color := "\u001B[0;33m"

/-- color.go `ColorBlue`. -/
def ColorBlue : Color := "\u001B[0;34m"

/-- color.go `ColorPurple`. -/
def ColorPurple : Color := "\u001B[0;35m"

/-- color.go `ColorCyan`. -/
def ColorCyan : Color := "\u001B[0;36m"

/-- color.go `ColorGray`. -/
def ColorGray : Color := "\u001B[0;37m"

/-- color.go `ColorFatalRed`. -/
def ColorFatalRed : Color := "\u001B[1m\u001B[31m\u001B[7m"

/-- color.go `ColorDarkOrange`. -/
def ColorDarkOrange : Color := "\u001B[1m\u001B[38;5;202m"

/-- color.go `ColorBrightWhite` (written by `ColorLogger.White`). -/
def ColorBrightWhite : Color := "\u001B[1m\u001B[38;5;255m"

/-- color.go `ColorNicePurple`. -/
def ColorNicePurple : Color := "\u001B[1m\u001B[38;5;99m"

/-- color.go `mixer`: wrap `data` in `color` on and `colorOff`. -/
def mixer (data : String) (color : Color) : String :=
  color ++ data ++ colorOff

/-- fancylog.go `Level`: a severity label. -/
abbrev Level := String

/-- fancylog.go `Level.toPrefix`: the bracketed severity label. -/
def toPrefix (l : Level) : String := "[" ++ l ++ "]"

/-- Go `len` of a string: the number of UTF-8 bytes. -/
def golen (s : String) : Nat := (s.data.map Char.utf8Size).sum

/-- fancylog.go `Prefix`: a level bound to a display color and a flag that
requests a call-stack trace. -/
structure Prefix where
  text : Level
  color : Color
  file : Bool := false
deriving DecidableEq

/-- Association-list lookup, standing for a Go map read `m[k]` (`none` when
the key is absent). A Go map holds a key at most once, so the first match is
the only match. -/
def lookupA {α : Type} : List (String × α) → String → Option α
  | [], _ => none
  | (k, v) :: rest, key => if k = key then some v else lookupA rest key

/-- Go map assignment `m[k] = v`: replace the entry in place when the key is
present, otherwise add it. -/
def mapSet {α : Type} (k : String) (v : α) : List (String × α) → List (String × α)
  | [] => [(k, v)]
  | (k', v') :: rest => if k' = k then (k, v) :: rest else (k', v') :: mapSet k v rest

/-- fancylog.go `Prefixes`: the standard level registry. -/
def Prefixes : List (Level × Prefix) :=
  [ ("FATAL", { text := "FATAL", color := ColorFatalRed, file := true }),
    ("ERROR", { text := "ERROR", color := ColorRed }),
    ("WARN", { text := "WARN", color := ColorOrange }),
    ("INFO", { text := "INFO", color := ColorGreen }),
    ("TRACE", { text := "TRACE", color := ColorCyan, file := true }),
    ("DEBUG", { text := "DEBUG", color := ColorPurple }) ]

/-- The read `Prefixes[lvl]` (a missing level yields Go's zero `Prefix`). -/
def prefixFor (registry : List (Level × Prefix)) (lvl : Level) : Prefix :=
  (lookupA registry lvl).getD { text := "", color := "", file := false }

/-- fancylog.go package state `maxNameSize` / `maxPrefixSize`. -/
structure AlignState where
  maxNameSize : Nat
  maxPrefixSize : Nat
deriving DecidableEq

/-- fancylog.go `scanPrefixes`: raise `maxPrefixSize` to the widest level
label of the registry (iterating the registry in its current order). -/
def scanPrefixes (registry : List (Level × Prefix)) (s : AlignState) : AlignState :=
  { s with
    maxPrefixSize :=
      registry.foldl
        (fun m kv => if golen kv.1 > m then golen kv.1 else m)
        s.maxPrefixSize }

/-- fancylog.go `Logger`: the per-instance configuration (the sinks, the
mutex and the time-source override live outside this model; see the header). -/
structure Logger where
  name : String := ""
  color : Bool := false
  debug : Bool := false
  trace : Bool := false
  timestamp : Bool := false
  timestampColor : Option Color := none
  quiet : Bool := false
  nameFormatter : Option String := none
deriving DecidableEq

/-- fancylog.go `New` (the `color` field is `terminal.IsTerminal(out.Fd())`,
taken as the input bit `isTerminal`). -/
def New (isTerminal : Bool) (s : AlignState) : Logger × AlignState :=
  ({ color := isTerminal, timestamp := true, trace := true }, scanPrefixes Prefixes s)

/-- fancylog.go `NewWithError` (distinct error sink; same configuration). -/
def NewWithError (isTerminal : Bool) (s : AlignState) : Logger × AlignState :=
  ({ color := isTerminal, timestamp := true, trace := true }, scanPrefixes Prefixes s)

/-- fancylog.go `NewWithName`. -/
def NewWithName (name : String) (isTerminal : Bool) (s : AlignState) : Logger × AlignState :=
  let s1 := scanPrefixes Prefixes s
  let s2 := if s1.maxNameSize < golen name then { s1 with maxNameSize := golen name } else s1
  ({ name := name, color := isTerminal, timestamp := true, trace := true }, s2)

/-- fancylog.go `NewWithNameAndError`. -/
def NewWithNameAndError (name : String) (isTerminal : Bool) (s : AlignState) :
    Logger × AlignState :=
  let s1 := scanPrefixes Prefixes s
  let s2 := if s1.maxNameSize < golen name then { s1 with maxNameSize := golen name } else s1
  ({ name := name, color := isTerminal, timestamp := true, trace := true }, s2)

/-- fancylog.go `WithoutColor`. -/
def WithoutColor (l : Logger) : Logger := { l with color := false }

/-- fancylog.go `WithColor`. -/
def WithColor (l : Logger) : Logger := { l with color := true }

/-- fancylog.go `WithDebug`. -/
def WithDebug (l : Logger) : Logger := { l with debug := true }

/-- fancylog.go `WithoutDebug`. -/
def WithoutDebug (l : Logger) : Logger := { l with debug := false }

/-- fancylog.go `WithTrace`. -/
def WithTrace (l : Logger) : Logger := { l with trace := true }

/-- fancylog.go `WithoutTrace`. -/
def WithoutTrace (l : Logger) : Logger := { l with trace := false }

/-- fancylog.go `WithTimestamp`. -/
def WithTimestamp (l : Logger) : Logger := { l with timestamp := true }

/-- fancylog.go `WithoutTimestamp`. -/
def WithoutTimestamp (l : Logger) : Logger := { l with timestamp := false }

/-- fancylog.go `Quiet`. -/
def MakeQuiet (l : Logger) : Logger := { l with quiet := true }

/-- fancylog.go `NoQuiet`. -/
def NoQuiet (l : Logger) : Logger := { l with quiet := false }

/-- fancylog.go `IsDebug`. -/
def IsDebug (l : Logger) : Bool := l.debug

/-- fancylog.go `IsTrace`. NOTE: the source returns `l.debug`, not `l.trace`
(fancylog.go line 240); this embedding reproduces the source as written. -/
def IsTrace (l : Logger) : Bool := l.debug

/-- fancylog.go `IsQuiet`. -/
def IsQuiet (l : Logger) : Bool := l.quiet

/-- `n` spaces (the `b.AppendSpace()` loops). -/
def spaces (n : Nat) : String := String.mk (List.replicate n ' ')

/-- `fmt.Sprintf(format, arg)` for a format holding one `%s` verb: substitute
`arg` for the first `%s`. (The only format the source installs is the HTTP
name formatter.) -/
def subst1 : List Char → List Char → List Char
  | [], _ => []
  | c :: rest, arg =>
    if c = '%' ∧ rest.head? = some 's' then arg ++ rest.tail
    else c :: subst1 rest arg

/-- `fmt.Sprintf` on one string argument, as used by `writeName`. -/
def sprintf1 (format arg : String) : String :=
  String.mk (subst1 format.data arg.data)

/-- `fmt.Sprintln` on one string operand: the operand plus a newline. -/
def sprintln1 (s : String) : String := s ++ "\n"

/-- fancylog.go `writePrefix`: the bracketed severity label (colored by the
override, else the prefix's color, when color is enabled), padded to
`maxPrefixSize`, plus one trailing space. -/
def writePrefix (l : Logger) (maxPrefixSize : Nat) (p : Prefix) (colorOverride : Option Color) :
    String :=
  (if l.color then
    (match colorOverride with
     | some c => mixer (toPrefix p.text) c
     | none => mixer (toPrefix p.text) p.color)
   else toPrefix p.text)
  ++ spaces (maxPrefixSize - golen p.text) ++ " "

/-- fancylog.go `writeTime` on the formatted timestamp `timeStr`. -/
def writeTime (l : Logger) (timeStr : String) : String :=
  (if l.color then (match l.timestampColor with | some c => c | none => ColorBlue) else "")
  ++ timeStr ++ " "
  ++ (if l.color then colorOff else "")

/-- fancylog.go `writeName`: the display name through the optional format
template, else wrapped as `<name> `. -/
def writeName (l : Logger) : String :=
  (if l.color then ColorNicePurple else "")
  ++ (match l.nameFormatter with
      | some f => sprintf1 f l.name ++ " "
      | none => "<" ++ l.name ++ "> ")
  ++ (if l.color then colorOff else "")

/-- fancylog.go `output`/`outputMap` lines 400-412 / 464-476: the name
segment and its alignment padding (both renders share this block verbatim). -/
def nameSegment (l : Logger) (maxNameSize : Nat) : String :=
  (if golen l.name > 0 then writeName l else "")
  ++ (if golen l.name ≠ maxNameSize then
        spaces (maxNameSize - golen l.name)
        ++ (if golen l.name = 0 then spaces 3 else "")
      else "")

/-- fancylog.go `writeStack`. -/
def writeStack (l : Logger) (stack : String) : String :=
  (if l.color then ColorOrange else "")
  ++ stack
  ++ (if l.color then colorOff else "")

/-- fancylog.go `output` lines 422-425: the message bytes, with a newline
appended when the message does not already end in one. -/
def payload (data : String) : String :=
  if data.data.getLast? = some '\n' then data else data ++ "\n"

/-- fancylog.go `output`: the free-form render. `none` = the quiet early
return (nothing written to either sink, no buffer acquired); `some (e, b)` =
the bytes `b` written to the error sink when `e`, else the normal sink. -/
def output (l : Logger) (s : AlignState) (pfx : Prefix) (data : String) (isErr : Bool)
    (prefixColorOverride : Option Color) (timeStr stack : String) :
    Option (Bool × String) :=
  if IsQuiet l then none
  else some (isErr,
    nameSegment l s.maxNameSize
    ++ writePrefix l s.maxPrefixSize pfx prefixColorOverride
    ++ (if l.timestamp then writeTime l timeStr else "")
    ++ payload data
    ++ (if pfx.file then writeStack l stack else ""))

/-- The value of one field-map entry, as `outputMap` distinguishes values:
a `map[string]any` value, a `map[string][]string` value, or anything else
(the default branch). A scalar carries the string `fmt.Sprintf("%+v", v)`
produces for it; likewise each inner value of a nested map carries its
`%+v` rendering. -/
inductive GoVal where
  | scalar (s : String)
  | anyMap (entries : List (String × String))
  | strsMap (entries : List (String × String))
deriving DecidableEq

/-- The byte-wise (= code-point-wise) lexicographic order Go's
`sort.Strings` sorts by, on the character lists. -/
def lexLeL : List Char → List Char → Bool
  | [], _ => true
  | _ :: _, [] => false
  | a :: as, b :: bs =>
    if a < b then true else if b < a then false else lexLeL as bs

/-- `lexLeL` on strings. -/
def lexLe (a b : String) : Bool := lexLeL a.data b.data

/-- `lexLe` as a relation. -/
def strLe (a b : String) : Prop := lexLe a b = true

instance : DecidableRel strLe := fun a b => by unfold strLe; infer_instance

/-- `sort.Strings`: the keys in ascending lexicographic order. -/
def sortStrings (l : List String) : List String := List.insertionSort strLe l

/-- `outputMap`'s rendering of one inner (nested) map: the inner keys in
sorted order, each as ` key:value ` with the orange/white/cyan color scheme
when color is enabled. -/
def innerRender (l : Logger) (t : List (String × String)) : String :=
  String.join ((sortStrings (t.map Prod.fst)).map (fun k =>
    " " ++ (if l.color then ColorOrange else "") ++ k
    ++ (if l.color then ColorBrightWhite else "") ++ ":"
    ++ (if l.color then ColorCyan else "")
    ++ ((lookupA t k).getD "") ++ " "))

/-- `outputMap`'s rendering of one entry of the field map: the key (purple
when color is enabled, then the per-key override color if one is present —
the source writes the override without checking the color flag), then the
value by its shape. -/
def renderEntry (l : Logger) (keyColors : Option (List (String × Color)))
    (data : List (String × GoVal)) (key : String) : String :=
  (if l.color then ColorPurple else "")
  ++ (match keyColors with
      | some ov => (match lookupA ov key with | some c => c | none => "")
      | none => "")
  ++ key
  ++ (match (lookupA data key).getD (GoVal.scalar "") with
      | GoVal.anyMap t =>
        "[" ++ innerRender l t ++ (if l.color then ColorPurple else "") ++ "] "
      | GoVal.strsMap t =>
        "[" ++ innerRender l t ++ (if l.color then ColorPurple else "") ++ "] "
      | GoVal.scalar v =>
        (if l.color then ColorOrange else "") ++ "="
        ++ (if l.color then ColorCyan else "") ++ v ++ " ")

/-- fancylog.go `outputMap`: the field-map render. Keys are collected in the
map's iteration order (the list order of `data`), sorted, and rendered in
sorted order. `none` = the quiet early return. -/
def outputMap (l : Logger) (s : AlignState) (pfx : Prefix) (data : List (String × GoVal))
    (isErr : Bool) (prefixColorOverride : Option Color)
    (mapKeyColorOverride : Option (List (String × Color))) (timeStr stack : String) :
    Option (Bool × String) :=
  if IsQuiet l then none
  else some (isErr,
    nameSegment l s.maxNameSize
    ++ writePrefix l s.maxPrefixSize pfx prefixColorOverride
    ++ (if l.timestamp then writeTime l timeStr else "")
    ++ String.join ((sortStrings (data.map Prod.fst)).map
        (renderEntry l mapKeyColorOverride data))
    ++ (if l.color then colorOff else "")
    ++ "\n"
    ++ (if pfx.file then writeStack l stack ++ "\n" else ""))

/-- The effect of a `Fatal*` call: what was written (if anything) and the
status `os.Exit` is called with. -/
structure FatalResult where
  written : Option (Bool × String)
  exitCode : Int
deriving DecidableEq

/-- fancylog.go `Fatal` on one string operand. -/
def FatalCall (l : Logger) (s : AlignState) (msg timeStr stack : String) : FatalResult :=
  { written := output l s (prefixFor Prefixes "FATAL") (sprintln1 msg) true none timeStr stack,
    exitCode := 1 }

/-- fancylog.go `FatalWithCode` on one string operand. -/
def FatalWithCodeCall (l : Logger) (exit : Int) (s : AlignState) (msg timeStr stack : String) :
    FatalResult :=
  { written := output l s (prefixFor Prefixes "FATAL") (sprintln1 msg) true none timeStr stack,
    exitCode := exit }

/-- fancylog.go `FatalMap`. -/
def FatalMapCall (l : Logger) (s : AlignState) (v : List (String × GoVal))
    (timeStr stack : String) : FatalResult :=
  { written := outputMap l s (prefixFor Prefixes "FATAL") v true none none timeStr stack,
    exitCode := 1 }

/-- fancylog.go `Error` on one string operand (error sink). -/
def ErrorCall (l : Logger) (s : AlignState) (msg timeStr stack : String) :
    Option (Bool × String) :=
  output l s (prefixFor Prefixes "ERROR") (sprintln1 msg) true none timeStr stack

/-- fancylog.go `Warn` on one string operand. -/
def WarnCall (l : Logger) (s : AlignState) (msg timeStr stack : String) :
    Option (Bool × String) :=
  output l s (prefixFor Prefixes "WARN") (sprintln1 msg) false none timeStr stack

/-- fancylog.go `Info` on one string operand. -/
def InfoCall (l : Logger) (s : AlignState) (msg timeStr stack : String) :
    Option (Bool × String) :=
  output l s (prefixFor Prefixes "INFO") (sprintln1 msg) false none timeStr stack

/-- fancylog.go `InfoMap`. -/
def InfoMapCall (l : Logger) (s : AlignState) (v : List (String × GoVal))
    (timeStr stack : String) : Option (Bool × String) :=
  outputMap l s (prefixFor Prefixes "INFO") v false none none timeStr stack

/-- fancylog.go `Debug`: gated on `IsDebug`. -/
def DebugCall (l : Logger) (s : AlignState) (msg timeStr stack : String) :
    Option (Bool × String) :=
  if IsDebug l then output l s (prefixFor Prefixes "DEBUG") (sprintln1 msg) false none timeStr stack
  else none

/-- fancylog.go `DebugMap`: gated on `IsDebug`. -/
def DebugMapCall (l : Logger) (s : AlignState) (v : List (String × GoVal))
    (timeStr stack : String) : Option (Bool × String) :=
  if IsDebug l then outputMap l s (prefixFor Prefixes "DEBUG") v false none none timeStr stack
  else none

/-- fancylog.go `Trace`: gated on `IsTrace` (which the source wires to the
debug flag). -/
def TraceCall (l : Logger) (s : AlignState) (msg timeStr stack : String) :
    Option (Bool × String) :=
  if IsTrace l then output l s (prefixFor Prefixes "TRACE") (sprintln1 msg) false none timeStr stack
  else none

/-- fancylog.go `TraceMap`: gated on `IsTrace`. -/
def TraceMapCall (l : Logger) (s : AlignState) (v : List (String × GoVal))
    (timeStr stack : String) : Option (Bool × String) :=
  if IsTrace l then outputMap l s (prefixFor Prefixes "TRACE") v false none none timeStr stack
  else none

/-- httplog (current revision) `HttpPrefixes`. -/
def HttpPrefixes : List (Level × Prefix) :=
  [ ("GET", { text := "GET", color := ColorCyan }),
    ("DELETE", { text := "DELETE", color := ColorCyan }),
    ("CONNECT", { text := "CONNECT", color := ColorCyan }),
    ("HEAD", { text := "HEAD", color := ColorCyan }),
    ("OPTIONS", { text := "OPTIONS", color := ColorCyan }),
    ("POST", { text := "POST", color := ColorCyan }),
    ("PUT", { text := "PUT", color := ColorCyan }),
    ("TRACE", { text := "TRACE", color := ColorCyan }) ]

/-- httplog `getStatusColor` (current revision, with both-sided bounds). -/
def getStatusColor (status : Int) : Option Color :=
  if 100 ≤ status ∧ status ≤ 199 then some ColorCyan
  else if 200 ≤ status ∧ status ≤ 299 then some ColorGreen
  else if 300 ≤ status ∧ status ≤ 399 then some ColorOrange
  else if 400 ≤ status ∧ status ≤ 499 then some ColorRed
  else if 500 ≤ status ∧ status ≤ 599 then some ColorFatalRed
  else none

/-- httplog `ensureStatusKey`: store the status into the caller's map
(`a["status"] = status`; `%+v` of an int is its decimal form), then render
the updated map with the status color and the per-key override on
`"status"`. The first component is the caller's map after the call. -/
def ensureStatusKey (l : Logger) (s : AlignState) (a : List (String × GoVal)) (status : Int)
    (pfx : Prefix) (timeStr stack : String) :
    List (String × GoVal) × Option (Bool × String) :=
  let a2 := mapSet "status" (GoVal.scalar (toString status)) a
  (a2, outputMap l s pfx a2 false (getStatusColor status) (some [("status", ColorOrange)])
    timeStr stack)

/-- httplog `GetMethod`. -/
def GetMethod (l : Logger) (s : AlignState) (a : List (String × GoVal)) (status : Int)
    (timeStr stack : String) : List (String × GoVal) × Option (Bool × String) :=
  ensureStatusKey l s a status (prefixFor HttpPrefixes "GET") timeStr stack

/-- The bytes a render result wrote (empty when nothing was written). -/
def writtenBytes (r : Option (Bool × String)) : String := (r.getD (false, "")).2

/-- `s` ends in a newline that is not preceded by another newline. -/
def endsInOneNewline (s : String) : Prop :=
  s.data.getLast? = some '\n' ∧ s.data.dropLast.getLast? ≠ some '\n'

instance (s : String) : Decidable (endsInOneNewline s) := by
  unfold endsInOneNewline; infer_instance

/-- No ESC byte (0x1B), hence no ANSI escape sequence, occurs in `s`. -/
def noEsc (s : String) : Prop := '\u001B' ∉ s.data

instance (s : String) : Decidable (noEsc s) := by
  unfold noEsc; infer_instance

/-- Every string a field value contributes to the render is ESC-free. -/
def valNoEsc : GoVal → Prop
  | GoVal.scalar v => noEsc v
  | GoVal.anyMap t => ∀ kv ∈ t, noEsc kv.1 ∧ noEsc kv.2
  | GoVal.strsMap t => ∀ kv ∈ t, noEsc kv.1 ∧ noEsc kv.2

/-- `sub` occurs contiguously in `s`. -/
def containsSub (s sub : String) : Prop := ∃ pre post, s = pre ++ (sub ++ post)

theorem lexLeL_total : ∀ as bs : List Char, lexLeL as bs = true ∨ lexLeL bs as = true := by
  intro as
  induction as with
  | nil => intro bs; left; rfl
  | cons a as ih =>
    intro bs
    cases bs with
    | nil => right; rfl
    | cons b bs =>
      rcases lt_trichotomy a b with h | h | h
      · left; simp [lexLeL, h]
      · subst h
        rcases ih bs with h' | h'
        · left; simp [lexLeL, h']
        · right; simp [lexLeL, h']
      · right; simp [lexLeL, h]

theorem lexLeL_antisymm : ∀ as bs : List Char,
    lexLeL as bs = true → lexLeL bs as = true → as = bs := by
  intro as
  induction as with
  | nil =>
    intro bs h1 h2
    cases bs with
    | nil => rfl
    | cons b bs => simp [lexLeL] at h2
  | cons a as ih =>
    intro bs h1 h2
    cases bs with
    | nil => simp [lexLeL] at h1
    | cons b bs =>
      rcases lt_trichotomy a b with h | h | h
      · simp [lexLeL, h, lt_asymm h] at h2
      · subst h
        simp [lexLeL, lt_irrefl] at h1 h2
        rw [ih bs h1 h2]
      · simp [lexLeL, h, lt_asymm h] at h1

theorem lexLeL_trans : ∀ as bs cs : List Char,
    lexLeL as bs = true → lexLeL bs cs = true → lexLeL as cs = true := by
  intro as
  induction as with
  | nil => intro bs cs _ _; rfl
  | cons a as ih =>
    intro bs cs h1 h2
    cases bs with
    | nil => simp [lexLeL] at h1
    | cons b bs =>
      cases cs with
      | nil => simp [lexLeL] at h2
      | cons c cs =>
        rcases lt_trichotomy a b with hab | hab | hab
        · rcases lt_trichotomy b c with hbc | hbc | hbc
          · simp [lexLeL, lt_trans hab hbc]
          · subst hbc; simp [lexLeL, hab]
          · simp [lexLeL, hbc, lt_asymm hbc] at h2
        · subst hab
          rcases lt_trichotomy a c with hac | hac | hac
          · simp [lexLeL, hac]
          · subst hac
            simp [lexLeL, lt_irrefl] at h1 h2 ⊢
            exact ih _ _ h1 h2
          · simp [lexLeL, hac, lt_asymm hac] at h2
        · simp [lexLeL, hab, lt_asymm hab] at h1

instance : IsTotal String strLe :=
  ⟨fun a b => lexLeL_total a.data b.data⟩

instance : IsTrans String strLe :=
  ⟨fun a b c h1 h2 => lexLeL_trans a.data b.data c.data h1 h2⟩

instance : IsAntisymm String strLe :=
  ⟨fun a b h1 h2 => String.ext (lexLeL_antisymm a.data b.data h1 h2)⟩

theorem sortStrings_sorted (l : List String) : List.Sorted strLe (sortStrings l) :=
  List.sorted_insertionSort strLe l

theorem sortStrings_perm (l : List String) : (sortStrings l).Perm l :=
  List.perm_insertionSort strLe l

/-- Two key lists that are permutations of each other sort to the same
list: the iteration order of the map does not reach the rendered order. -/
theorem sortStrings_eq_of_perm {l1 l2 : List String} (h : l1.Perm l2) :
    sortStrings l1 = sortStrings l2 :=
  List.eq_of_perm_of_sorted
    ((sortStrings_perm l1).trans (h.trans (sortStrings_perm l2).symm))
    (sortStrings_sorted l1) (sortStrings_sorted l2)

/-- Association-list lookup only depends on the set of entries when no key
is repeated (Go maps never repeat a key). -/
theorem lookupA_perm {α : Type} {l1 l2 : List (String × α)} (h : l1.Perm l2)
    (nd : (l1.map Prod.fst).Nodup) (k : String) : lookupA l1 k = lookupA l2 k := by
  induction h with
  | nil => rfl
  | cons x h ih =>
    obtain ⟨xk, xv⟩ := x
    simp only [List.map_cons, List.nodup_cons] at nd
    simp only [lookupA]
    split
    · rfl
    · exact ih nd.2
  | swap x y t =>
    obtain ⟨xk, xv⟩ := x
    obtain ⟨yk, yv⟩ := y
    simp only [List.map_cons, List.nodup_cons, List.mem_cons] at nd
    have hne : yk ≠ xk := fun hcontra => nd.1 (Or.inl hcontra)
    by_cases h1 : yk = k <;> by_cases h2 : xk = k <;>
      simp [lookupA, h1, h2]
    exact absurd (h1.trans h2.symm) hne
  | trans h1 h2 ih1 ih2 =>
    have nd2 : (_ : List (String × α)).map Prod.fst |>.Nodup := (h1.map Prod.fst).nodup nd
    exact (ih1 nd).trans (ih2 nd2)

/-- `innerRender` only depends on the set of inner entries. -/
theorem innerRender_perm (l : Logger) {t1 t2 : List (String × String)} (h : t1.Perm t2)
    (nd : (t1.map Prod.fst).Nodup) : innerRender l t1 = innerRender l t2 := by
  have hl : ∀ k, lookupA t1 k = lookupA t2 k := lookupA_perm h nd
  unfold innerRender
  simp only [hl, sortStrings_eq_of_perm (h.map Prod.fst)]

/-- `renderEntry` only depends on the set of entries of the field map. -/
theorem renderEntry_perm (l : Logger) (keyColors : Option (List (String × Color)))
    {d1 d2 : List (String × GoVal)} (h : d1.Perm d2) (nd : (d1.map Prod.fst).Nodup) :
    renderEntry l keyColors d1 = renderEntry l keyColors d2 := by
  funext k
  unfold renderEntry
  rw [lookupA_perm h nd k]

/-- The width fold of `scanPrefixes` never goes below its accumulator. -/
theorem scan_foldl_le (registry : List (Level × Prefix)) (acc : Nat) :
    acc ≤ registry.foldl (fun m kv => if golen kv.1 > m then golen kv.1 else m) acc := by
  induction registry generalizing acc with
  | nil => exact le_refl acc
  | cons kv rest ih =>
    simp only [List.foldl_cons]
    refine le_trans ?_ (ih _)
    dsimp only
    split <;> omega

/-- The state a named constructor leaves behind, written out. -/
theorem NewWithName_snd (name : String) (isTerm : Bool) (s : AlignState) :
    (NewWithName name isTerm s).2
      = (if (scanPrefixes Prefixes s).maxNameSize < golen name
         then { scanPrefixes Prefixes s with maxNameSize := golen name }
         else scanPrefixes Prefixes s) := rfl

/-- `scanPrefixes` leaves `maxNameSize` alone. -/
theorem scanPrefixes_name (registry : List (Level × Prefix)) (s : AlignState) :
    (scanPrefixes registry s).maxNameSize = s.maxNameSize := rfl

/-- C7: a logger named `"svc"`, with color and timestamp disabled and the
alignment widths at their minimum (name width 3, prefix width 5 as scanned
from the standard prefixes), writes exactly `<svc> [INFO]  started\n` to the
normal sink on an Info call with message `"started"`. -/
theorem svc_info_scenario_exact_bytes :
    (NewWithName "svc" false ⟨0, 0⟩).2 = ⟨3, 5⟩
    ∧ InfoCall (WithoutTimestamp (NewWithName "svc" false ⟨0, 0⟩).1)
        (NewWithName "svc" false ⟨0, 0⟩).2 "started" "" ""
      = some (false, "<svc> [INFO]  started\n") := by
  constructor
  · decide
  · decide

/-- C5: the alignment widths are monotonically non-decreasing: constructing
a logger raises `maxNameSize` to the maximum of the current width and the
new name's width (never shrinking it), `scanPrefixes` never lowers
`maxPrefixSize` (and does not touch `maxNameSize`), and the spec's
3-then-7-then-2 sequence ends at width 7. -/
theorem alignment_widths_monotone :
    (∀ (s : AlignState) (name : String) (isTerm : Bool),
      s.maxNameSize ≤ ((NewWithName name isTerm s).2).maxNameSize
      ∧ ((NewWithName name isTerm s).2).maxNameSize = max s.maxNameSize (golen name)
      ∧ s.maxPrefixSize ≤ ((NewWithName name isTerm s).2).maxPrefixSize)
    ∧ (∀ (registry : List (Level × Prefix)) (s : AlignState),
      s.maxPrefixSize ≤ (scanPrefixes registry s).maxPrefixSize
      ∧ (scanPrefixes registry s).maxNameSize = s.maxNameSize)
    ∧ ((NewWithName "ab" false
        ((NewWithName "1234567" false ((NewWithName "abc" false ⟨0, 0⟩).2)).2)).2).maxNameSize
      = 7 := by
  refine ⟨fun s name isTerm => ?_, fun registry s => ⟨scan_foldl_le registry s.maxPrefixSize, rfl⟩,
    by decide⟩
  have hle : s.maxPrefixSize ≤ (scanPrefixes Prefixes s).maxPrefixSize :=
    scan_foldl_le Prefixes s.maxPrefixSize
  have hnm : (scanPrefixes Prefixes s).maxNameSize = s.maxNameSize := rfl
  rw [NewWithName_snd]
  by_cases h : (scanPrefixes Prefixes s).maxNameSize < golen name
  · simp only [h, if_true]
    refine ⟨?_, ?_, hle⟩
    · rw [hnm] at h; exact Nat.le_of_lt h
    · rw [hnm] at h; simp [Nat.max_eq_right (Nat.le_of_lt h)]
  · simp only [h, if_false]
    rw [hnm] at h
    exact ⟨le_refl _, by rw [hnm]; omega, hle⟩

/-- C2: with quiet set, every call at every level — the Fatal message
included — writes nothing to either sink (the render returns before any
buffer is acquired), while a Fatal call still exits the process, with
status 1 by default or the caller's status for the WithCode variant. -/
theorem quiet_suppresses_all_output (l : Logger) (hq : l.quiet = true) :
    ∀ (s : AlignState) (pfx : Prefix) (data : String) (isErr : Bool) (pco : Option Color)
      (keyOv : Option (List (String × Color))) (dataM : List (String × GoVal))
      (msg timeStr stack : String) (exit : Int),
    output l s pfx data isErr pco timeStr stack = none
    ∧ outputMap l s pfx dataM isErr pco keyOv timeStr stack = none
    ∧ (FatalCall l s msg timeStr stack).written = none
    ∧ (FatalCall l s msg timeStr stack).exitCode = 1
    ∧ (FatalWithCodeCall l exit s msg timeStr stack).written = none
    ∧ (FatalWithCodeCall l exit s msg timeStr stack).exitCode = exit
    ∧ (FatalMapCall l s dataM timeStr stack).written = none
    ∧ InfoCall l s msg timeStr stack = none
    ∧ ErrorCall l s msg timeStr stack = none
    ∧ WarnCall l s msg timeStr stack = none
    ∧ DebugCall l s msg timeStr stack = none
    ∧ TraceCall l s msg timeStr stack = none
    ∧ InfoMapCall l s dataM timeStr stack = none
    ∧ DebugMapCall l s dataM timeStr stack = none
    ∧ TraceMapCall l s dataM timeStr stack = none := by
  intro s pfx data isErr pco keyOv dataM msg timeStr stack exit
  simp [output, outputMap, IsQuiet, hq, FatalCall, FatalWithCodeCall, FatalMapCall,
    InfoCall, ErrorCall, WarnCall, DebugCall, TraceCall, InfoMapCall, DebugMapCall,
    TraceMapCall]

/-- Witness for the quiet-suppression theorem at a concrete quiet logger. -/
theorem quiet_suppresses_all_output_witness :
    (MakeQuiet (New false ⟨0, 0⟩).1).quiet = true
    ∧ output (MakeQuiet (New false ⟨0, 0⟩).1) ⟨0, 5⟩ (prefixFor Prefixes "INFO") "m" false
        none "" "" = none :=
  ⟨by decide,
   (quiet_suppresses_all_output (MakeQuiet (New false ⟨0, 0⟩).1) (by decide)
     ⟨0, 5⟩ (prefixFor Prefixes "INFO") "m" false none none [] "m" "" "" 0).1⟩

/-- C3: the source gates Trace-level calls on the debug flag, not the trace
flag: `IsTrace` returns `l.debug` (fancylog.go line 240, contradicting its
own doc comment), so a logger with trace enabled and debug disabled emits
nothing on `Trace`, and a logger with trace disabled but debug enabled does
emit. -/
theorem trace_gate_reads_debug_flag :
    ((New false ⟨0, 0⟩).1.trace = true
     ∧ (New false ⟨0, 0⟩).1.quiet = false
     ∧ TraceCall (New false ⟨0, 0⟩).1 ⟨0, 5⟩ "x" "" "" = none)
    ∧ ((WithDebug (WithoutTrace (New false ⟨0, 0⟩).1)).trace = false
     ∧ TraceCall (WithDebug (WithoutTrace (New false ⟨0, 0⟩).1)) ⟨0, 5⟩ "x" "" "" ≠ none)
    ∧ (∀ l : Logger, IsTrace l = l.debug) :=
  ⟨by decide, by decide, fun _ => rfl⟩

/-- C10: every constructor starts a logger with timestamp on, the trace
field on, debug off and quiet off — but, because `IsTrace` reads the debug
flag, such a fresh logger emits neither Debug-level nor Trace-level calls. -/
theorem constructor_defaults :
    (∀ (b : Bool) (s : AlignState),
      ((New b s).1.timestamp = true ∧ (New b s).1.trace = true)
      ∧ ((New b s).1.debug = false ∧ (New b s).1.quiet = false))
    ∧ (∀ (b : Bool) (s : AlignState),
      ((NewWithError b s).1.timestamp = true ∧ (NewWithError b s).1.trace = true)
      ∧ ((NewWithError b s).1.debug = false ∧ (NewWithError b s).1.quiet = false))
    ∧ (∀ (name : String) (b : Bool) (s : AlignState),
      ((NewWithName name b s).1.timestamp = true ∧ (NewWithName name b s).1.trace = true)
      ∧ ((NewWithName name b s).1.debug = false ∧ (NewWithName name b s).1.quiet = false))
    ∧ (∀ (name : String) (b : Bool) (s : AlignState),
      ((NewWithNameAndError name b s).1.timestamp = true
        ∧ (NewWithNameAndError name b s).1.trace = true)
      ∧ ((NewWithNameAndError name b s).1.debug = false
        ∧ (NewWithNameAndError name b s).1.quiet = false))
    ∧ DebugCall (New false ⟨0, 0⟩).1 ⟨0, 5⟩ "x" "" "" = none
    ∧ TraceCall (New false ⟨0, 0⟩).1 ⟨0, 5⟩ "x" "" "" = none :=
  ⟨fun _ _ => ⟨⟨rfl, rfl⟩, ⟨rfl, rfl⟩⟩, fun _ _ => ⟨⟨rfl, rfl⟩, ⟨rfl, rfl⟩⟩,
   fun _ _ _ => ⟨⟨rfl, rfl⟩, ⟨rfl, rfl⟩⟩, fun _ _ _ => ⟨⟨rfl, rfl⟩, ⟨rfl, rfl⟩⟩,
   by decide, by decide⟩

/-- C1: for a fixed configuration, alignment snapshot and time source, the
field-map render is a function of the map's entries alone — two iteration
orders of the same entries produce byte-identical output — because the
outer keys, and likewise the inner keys of a nested value, are rendered in
sorted lexicographic order. -/
theorem render_fields_deterministic :
    (∀ (l : Logger) (s : AlignState) (pfx : Prefix) (isErr : Bool) (pco : Option Color)
       (keyOv : Option (List (String × Color))) (timeStr stack : String)
       (d1 d2 : List (String × GoVal)),
       d1.Perm d2 → (d1.map Prod.fst).Nodup →
       outputMap l s pfx d1 isErr pco keyOv timeStr stack
         = outputMap l s pfx d2 isErr pco keyOv timeStr stack)
    ∧ (∀ (l : Logger) (t1 t2 : List (String × String)),
       t1.Perm t2 → (t1.map Prod.fst).Nodup → innerRender l t1 = innerRender l t2)
    ∧ (∀ keys : List String,
       List.Sorted strLe (sortStrings keys) ∧ (sortStrings keys).Perm keys) := by
  refine ⟨fun l s pfx isErr pco keyOv timeStr stack d1 d2 h nd => ?_,
    fun l t1 t2 h nd => innerRender_perm l h nd,
    fun keys => ⟨sortStrings_sorted keys, sortStrings_perm keys⟩⟩
  unfold outputMap
  rw [renderEntry_perm l keyOv h nd, sortStrings_eq_of_perm (h.map Prod.fst)]

/-- Witness: the determinism theorem applied to two insertion orders of one
concrete two-entry map (one entry nested). -/
theorem render_fields_deterministic_witness :
    ([("b", GoVal.scalar "1"), ("a", GoVal.anyMap [("y", "2"), ("x", "3")])]
      : List (String × GoVal)).Perm
      [("a", GoVal.anyMap [("y", "2"), ("x", "3")]), ("b", GoVal.scalar "1")]
    ∧ (List.map Prod.fst
        ([("b", GoVal.scalar "1"), ("a", GoVal.anyMap [("y", "2"), ("x", "3")])]
          : List (String × GoVal))).Nodup
    ∧ outputMap { } ⟨0, 5⟩ (prefixFor Prefixes "INFO")
        [("b", GoVal.scalar "1"), ("a", GoVal.anyMap [("y", "2"), ("x", "3")])]
        false none none "" ""
      = outputMap { } ⟨0, 5⟩ (prefixFor Prefixes "INFO")
        [("a", GoVal.anyMap [("y", "2"), ("x", "3")]), ("b", GoVal.scalar "1")]
        false none none "" "" :=
  ⟨by decide, by decide,
   render_fields_deterministic.1 { } ⟨0, 5⟩ (prefixFor Prefixes "INFO") false none none "" ""
     _ _ (by decide) (by decide)⟩

/-- C4 counterexample: a message that already ends in two newlines keeps
both, so the rendered payload does not end in exactly one newline. -/
theorem payload_two_newlines_counterexample :
    payload "x\n\n" = "x\n\n" ∧ ¬ endsInOneNewline (payload "x\n\n") := by decide

/-- C4 (amended): the free-form render appends a newline exactly when the
message does not already end in one, so the payload always ends in a
newline, and in exactly one unless the message itself already ended in two
or more consecutive newlines. -/
theorem newline_normalization (data : String) :
    (data.data.getLast? ≠ some '\n' → payload data = data ++ "\n")
    ∧ (data.data.getLast? = some '\n' → payload data = data)
    ∧ (payload data).data.getLast? = some '\n'
    ∧ (¬ (data.data.getLast? = some '\n' ∧ data.data.dropLast.getLast? = some '\n') →
        endsInOneNewline (payload data)) := by
  by_cases h : data.data.getLast? = some '\n'
  · have hp : payload data = data := by simp [payload, h]
    refine ⟨fun hc => absurd h hc, fun _ => hp, by rw [hp]; exact h, fun hn => ?_⟩
    have hd : data.data.dropLast.getLast? ≠ some '\n' := fun hc => hn ⟨h, hc⟩
    rw [hp]
    exact ⟨h, hd⟩
  · have hp : payload data = data ++ "\n" := by simp [payload, h]
    have hdata : (payload data).data = data.data ++ ['\n'] := by
      rw [hp, String.data_append]
    refine ⟨fun _ => hp, fun hc => absurd hc h, ?_, fun _ => ?_⟩
    · rw [hdata]; exact List.getLast?_concat _
    · unfold endsInOneNewline
      rw [hdata]
      exact ⟨List.getLast?_concat _, by rw [List.dropLast_concat]; exact h⟩

/-- Witness: the newline-normalization theorem at `"hello"` (no trailing
newline: one is appended). -/
theorem newline_normalization_witness :
    ("hello" : String).data.getLast? ≠ some '\n' ∧ payload "hello" = "hello" ++ "\n" :=
  ⟨by decide, (newline_normalization "hello").1 (by decide)⟩

/-- Byte length distributes over concatenation. -/
theorem golen_append (a b : String) : golen (a ++ b) = golen a + golen b := by
  simp [golen, String.data_append]

/-- A run of `n` spaces is `n` bytes. -/
theorem golen_spaces (n : Nat) : golen (spaces n) = n := by
  simp [golen, spaces, List.map_replicate, List.sum_replicate, smul_eq_mul]
  norm_num [show Char.utf8Size ' ' = 1 from rfl]

/-- With color off and the default name shape, the name segment of a named
logger is `<name> `: the name plus three bytes. -/
theorem golen_writeName_plain (l : Logger) (hc : l.color = false)
    (hf : l.nameFormatter = none) : golen (writeName l) = golen l.name + 3 := by
  unfold writeName
  rw [hc, hf]
  have h1 : golen "<" = 1 := by decide
  have h2 : golen "> " = 2 := by decide
  have h3 : golen "" = 0 := by decide
  simp only [Bool.false_eq_true, if_false, golen_append]
  omega

/-- C8 counterexample: an unnamed logger rendered while `maxNameSize` is 0
reserves no gutter at all — the severity label starts at byte 0 — because
the padding block is skipped whenever the name's width already equals
`maxNameSize`. -/
theorem empty_name_no_gutter_counterexample :
    nameSegment { } 0 = ""
    ∧ ¬ 3 ≤ golen (nameSegment { } 0)
    ∧ output { } ⟨0, 5⟩ (prefixFor Prefixes "INFO") "x" false none "" ""
      = some (false, "[INFO]  x\n") := by decide

/-- C8 (amended): with color off and the default name shape, the bytes
before the severity label total `maxNameSize + 3` whenever the name fits
the column and the column is not the degenerate empty-name/zero-width case;
in that degenerate case the name segment is empty. -/
theorem name_column_width (l : Logger) (n : Nat) (hc : l.color = false)
    (hf : l.nameFormatter = none) (hle : golen l.name ≤ n)
    (hpos : 0 < golen l.name ∨ 0 < n) :
    golen (nameSegment l n) = n + 3 := by
  unfold nameSegment
  have hsp3 : golen (spaces 3) = 3 := golen_spaces 3
  have h0 : golen "" = 0 := by decide
  by_cases hname0 : golen l.name = 0
  · rcases hpos with hp | hp
    · omega
    · have hne : golen l.name ≠ n := by omega
      rw [if_neg (by omega : ¬ golen l.name > 0), if_pos hne, if_pos hname0]
      rw [golen_append, golen_append, golen_spaces, hsp3]
      omega
  · have hgt : golen l.name > 0 := Nat.pos_of_ne_zero hname0
    rw [if_pos hgt]
    by_cases heq : golen l.name = n
    · rw [if_neg (not_not_intro heq)]
      rw [golen_append, golen_writeName_plain l hc hf]
      omega
    · rw [if_pos heq, if_neg hname0]
      rw [golen_append, golen_append, golen_spaces, golen_writeName_plain l hc hf]
      omega

/-- Witness: the width theorem at a concrete two-byte name in a width-5
column. -/
theorem name_column_width_witness :
    golen (Logger.name { name := "ab" }) ≤ 5
    ∧ golen (nameSegment { name := "ab" } 5) = 5 + 3 :=
  ⟨by decide, name_column_width { name := "ab" } 5 rfl rfl (by decide) (Or.inl (by decide))⟩

/-- `lookupA` after `mapSet` at the written key reads the written value. -/
theorem lookupA_mapSet_self {α : Type} (k : String) (v : α) :
    ∀ a : List (String × α), lookupA (mapSet k v a) k = some v := by
  intro a
  induction a with
  | nil => simp [mapSet, lookupA]
  | cons kv rest ih =>
    obtain ⟨k', v'⟩ := kv
    by_cases h : k' = k
    · simp [mapSet, h, lookupA]
    · simp [mapSet, h, lookupA, ih]

/-- `lookupA` after `mapSet` at any other key is unchanged. -/
theorem lookupA_mapSet_other {α : Type} (k k0 : String) (v : α) (hne : k0 ≠ k) :
    ∀ a : List (String × α), lookupA (mapSet k v a) k0 = lookupA a k0 := by
  intro a
  have hne' : ¬ k = k0 := fun hh => hne hh.symm
  induction a with
  | nil =>
    simp only [mapSet, lookupA]
    rw [if_neg hne']
  | cons kv rest ih =>
    obtain ⟨k', v'⟩ := kv
    by_cases h : k' = k
    · subst h
      simp only [mapSet, if_pos rfl, lookupA]
      rw [if_neg hne', if_neg hne']
    · simp [mapSet, h, lookupA, ih]

/-- C9 counterexample: an HTTP method call writes the `status` key into the
caller's map — the map after a `GetMethod` call on an empty map is no
longer empty. -/
theorem get_method_mutates_map_counterexample :
    (GetMethod { } ⟨0, 7⟩ [] 200 "" "").1 = [("status", GoVal.scalar "200")]
    ∧ (GetMethod { } ⟨0, 7⟩ [] 200 "" "").1 ≠ ([] : List (String × GoVal)) := by decide

/-- C9 (amended): the map renders of the engine itself never mutate the
caller's map, but each HTTP method call first stores the response status
under `"status"` in the caller's map (`ensureStatusKey`); every other entry
is left untouched. -/
theorem http_method_sets_status_key :
    (∀ (l : Logger) (s : AlignState) (a : List (String × GoVal)) (status : Int)
       (timeStr stack : String),
       (GetMethod l s a status timeStr stack).1
         = mapSet "status" (GoVal.scalar (toString status)) a
       ∧ (ensureStatusKey l s a status (prefixFor HttpPrefixes "GET") timeStr stack).1
         = mapSet "status" (GoVal.scalar (toString status)) a)
    ∧ (∀ (a : List (String × GoVal)) (v : GoVal) (k : String), k ≠ "status" →
       lookupA (mapSet "status" v a) k = lookupA a k)
    ∧ (∀ (a : List (String × GoVal)) (v : GoVal),
       lookupA (mapSet "status" v a) "status" = some v) :=
  ⟨fun _ _ _ _ _ _ => ⟨rfl, rfl⟩,
   fun a v k h => lookupA_mapSet_other "status" k v h a,
   fun a v => lookupA_mapSet_self "status" v a⟩

/-- Witness: keys other than `status` survive an HTTP method call's map
update unchanged. -/
theorem http_method_sets_status_key_witness :
    ("uri" : String) ≠ "status"
    ∧ lookupA (mapSet "status" (GoVal.scalar "200") [("uri", GoVal.scalar "/")]) "uri"
      = lookupA [("uri", GoVal.scalar "/")] "uri" :=
  ⟨by decide,
   http_method_sets_status_key.2.1 [("uri", GoVal.scalar "/")] (GoVal.scalar "200") "uri"
     (by decide)⟩

theorem noEsc_append {a b : String} (ha : noEsc a) (hb : noEsc b) : noEsc (a ++ b) := by
  unfold noEsc at *
  rw [String.data_append]
  simp only [List.mem_append]
  rintro (h | h)
  · exact ha h
  · exact hb h

theorem noEsc_spaces (n : Nat) : noEsc (spaces n) := by
  unfold noEsc spaces
  intro h
  simp only [List.mem_replicate] at h
  exact absurd h.2 (by decide)

theorem noEsc_join : ∀ (parts : List String), (∀ p ∈ parts, noEsc p) →
    noEsc (String.join parts) := by
  have aux : ∀ (parts : List String) (acc : String), noEsc acc → (∀ p ∈ parts, noEsc p) →
      noEsc (List.foldl (fun r s => r ++ s) acc parts) := by
    intro parts
    induction parts with
    | nil => intro acc ha _; exact ha
    | cons p rest ih =>
      intro acc ha hp
      simp only [List.foldl_cons]
      exact ih (acc ++ p) (noEsc_append ha (hp p (List.mem_cons_self p rest)))
        (fun q hq => hp q (List.mem_cons_of_mem p hq))
  intro parts h
  exact aux parts "" (by decide) h

theorem subst1_noEsc (al : List Char) (h2 : '\u001B' ∉ al) :
    ∀ fl : List Char, '\u001B' ∉ fl → '\u001B' ∉ subst1 fl al := by
  intro fl
  induction fl with
  | nil => intro _; simp [subst1]
  | cons c rest ih =>
    intro h1
    have hc : c ≠ '\u001B' := fun hh => h1 (hh ▸ List.mem_cons_self c rest)
    have h1' : '\u001B' ∉ rest := fun hh => h1 (List.mem_cons_of_mem c hh)
    by_cases hp : c = '%' ∧ rest.head? = some 's'
    · rw [subst1, if_pos hp]
      simp only [List.mem_append]
      rintro (h | h)
      · exact h2 h
      · exact h1' (List.mem_of_mem_tail h)
    · rw [subst1, if_neg hp]
      intro h
      rcases List.mem_cons.mp h with h | h
      · exact hc h.symm
      · exact ih h1' h

theorem sprintf1_noEsc {f arg : String} (hf : noEsc f) (ha : noEsc arg) :
    noEsc (sprintf1 f arg) :=
  subst1_noEsc arg.data ha f.data hf

theorem lookupA_mem {α : Type} : ∀ (a : List (String × α)) (k : String) (v : α),
    lookupA a k = some v → (k, v) ∈ a := by
  intro a
  induction a with
  | nil => intro k v h; simp [lookupA] at h
  | cons kv rest ih =>
    intro k v h
    obtain ⟨k', v'⟩ := kv
    by_cases hk : k' = k
    · subst hk
      rw [lookupA, if_pos rfl] at h
      cases h
      exact List.mem_cons_self _ _
    · rw [lookupA, if_neg hk] at h
      exact List.mem_cons_of_mem _ (ih k v h)

theorem mem_sortStrings {k : String} {l : List String} (h : k ∈ sortStrings l) : k ∈ l :=
  (sortStrings_perm l).mem_iff.mp h

theorem writeName_noEsc {l : Logger} (hc : l.color = false) (hname : noEsc l.name)
    (hfmt : ∀ f, l.nameFormatter = some f → noEsc f) : noEsc (writeName l) := by
  unfold writeName
  rw [hc]
  simp only [Bool.false_eq_true, if_false]
  rcases hof : l.nameFormatter with _ | f
  · exact noEsc_append (noEsc_append (by decide)
      (noEsc_append (noEsc_append (by decide) hname) (by decide))) (by decide)
  · exact noEsc_append (noEsc_append (by decide)
      (noEsc_append (sprintf1_noEsc (hfmt f hof) hname) (by decide))) (by decide)

theorem nameSegment_noEsc {l : Logger} (hc : l.color = false) (hname : noEsc l.name)
    (hfmt : ∀ f, l.nameFormatter = some f → noEsc f) (n : Nat) :
    noEsc (nameSegment l n) := by
  unfold nameSegment
  refine noEsc_append ?_ ?_
  · split
    · exact writeName_noEsc hc hname hfmt
    · decide
  · split
    · refine noEsc_append (noEsc_spaces _) ?_
      split
      · exact noEsc_spaces 3
      · decide
    · decide

theorem writePrefix_noEsc {l : Logger} (hc : l.color = false) {pfx : Prefix}
    (ht : noEsc pfx.text) (n : Nat) (pco : Option Color) :
    noEsc (writePrefix l n pfx pco) := by
  unfold writePrefix toPrefix
  rw [hc]
  simp only [Bool.false_eq_true, if_false]
  exact noEsc_append (noEsc_append (noEsc_append (noEsc_append (by decide) ht) (by decide))
    (noEsc_spaces _)) (by decide)

theorem writeTime_noEsc {l : Logger} (hc : l.color = false) {timeStr : String}
    (ht : noEsc timeStr) : noEsc (writeTime l timeStr) := by
  unfold writeTime
  rw [hc]
  simp only [Bool.false_eq_true, if_false]
  exact noEsc_append (noEsc_append (noEsc_append (by decide) ht) (by decide)) (by decide)

theorem payload_noEsc {data : String} (hd : noEsc data) : noEsc (payload data) := by
  unfold payload
  split
  · exact hd
  · exact noEsc_append hd (by decide)

theorem writeStack_noEsc {l : Logger} (hc : l.color = false) {stack : String}
    (hs : noEsc stack) : noEsc (writeStack l stack) := by
  unfold writeStack
  rw [hc]
  simp only [Bool.false_eq_true, if_false]
  exact noEsc_append (noEsc_append (by decide) hs) (by decide)

theorem innerRender_noEsc {l : Logger} (hc : l.color = false) {t : List (String × String)}
    (ht : ∀ kv ∈ t, noEsc kv.1 ∧ noEsc kv.2) : noEsc (innerRender l t) := by
  unfold innerRender
  rw [hc]
  simp only [Bool.false_eq_true, if_false]
  refine noEsc_join _ (fun p hp => ?_)
  rcases List.mem_map.mp hp with ⟨k, hk, rfl⟩
  have hkmem : k ∈ t.map Prod.fst := mem_sortStrings hk
  rcases List.mem_map.mp hkmem with ⟨kv, hkv, rfl⟩
  have hknoesc : noEsc kv.1 := (ht kv hkv).1
  have hval : noEsc ((lookupA t kv.1).getD "") := by
    rcases hlk : lookupA t kv.1 with _ | w
    · decide
    · exact (ht _ (lookupA_mem t kv.1 w hlk)).2
  repeat' apply noEsc_append
  all_goals first | assumption | decide

theorem renderEntry_noEsc {l : Logger} (hc : l.color = false) {data : List (String × GoVal)}
    (hdata : ∀ kv ∈ data, noEsc kv.1 ∧ valNoEsc kv.2) {key : String} (hkey : noEsc key) :
    noEsc (renderEntry l none data key) := by
  unfold renderEntry
  rw [hc]
  simp only [Bool.false_eq_true, if_false]
  rcases hlk : lookupA data key with _ | v
  · simp only [Option.getD_none]
    repeat' apply noEsc_append
    all_goals first | assumption | decide
  · have hv : valNoEsc v := (hdata _ (lookupA_mem data key v hlk)).2
    simp only [Option.getD_some]
    cases v with
    | scalar w =>
      repeat' apply noEsc_append
      all_goals first | exact hv | assumption | decide
    | anyMap t =>
      repeat' apply noEsc_append
      all_goals first | exact innerRender_noEsc hc hv | assumption | decide
    | strsMap t =>
      repeat' apply noEsc_append
      all_goals first | exact innerRender_noEsc hc hv | assumption | decide

/-- With color off, a free-form render emits no ESC byte (given ESC-free
inputs). -/
theorem output_noEsc {l : Logger} (hc : l.color = false) (hname : noEsc l.name)
    (hfmt : ∀ f, l.nameFormatter = some f → noEsc f) {pfx : Prefix} (htext : noEsc pfx.text)
    {data timeStr stack : String} (hd : noEsc data) (htime : noEsc timeStr)
    (hstack : noEsc stack) (s : AlignState) (isErr : Bool) (pco : Option Color) :
    noEsc (writtenBytes (output l s pfx data isErr pco timeStr stack)) := by
  unfold output writtenBytes
  split
  · decide
  · simp only [Option.getD_some]
    refine noEsc_append (noEsc_append (noEsc_append (noEsc_append ?_ ?_) ?_) ?_) ?_
    · exact nameSegment_noEsc hc hname hfmt _
    · exact writePrefix_noEsc hc htext _ _
    · split
      · exact writeTime_noEsc hc htime
      · decide
    · exact payload_noEsc hd
    · split
      · exact writeStack_noEsc hc hstack
      · decide

/-- With color off and no per-key override, a field-map render emits no ESC
byte (given ESC-free inputs). -/
theorem outputMap_noEsc {l : Logger} (hc : l.color = false) (hname : noEsc l.name)
    (hfmt : ∀ f, l.nameFormatter = some f → noEsc f) {pfx : Prefix} (htext : noEsc pfx.text)
    {data : List (String × GoVal)} (hdata : ∀ kv ∈ data, noEsc kv.1 ∧ valNoEsc kv.2)
    {timeStr stack : String} (htime : noEsc timeStr) (hstack : noEsc stack)
    (s : AlignState) (isErr : Bool) (pco : Option Color) :
    noEsc (writtenBytes (outputMap l s pfx data isErr pco none timeStr stack)) := by
  unfold outputMap writtenBytes
  split
  · decide
  · simp only [Option.getD_some]
    refine noEsc_append (noEsc_append (noEsc_append (noEsc_append (noEsc_append
      (noEsc_append ?_ ?_) ?_) ?_) ?_) ?_) ?_
    · exact nameSegment_noEsc hc hname hfmt _
    · exact writePrefix_noEsc hc htext _ _
    · split
      · exact writeTime_noEsc hc htime
      · decide
    · refine noEsc_join _ (fun p hp => ?_)
      rcases List.mem_map.mp hp with ⟨k, hk, rfl⟩
      have hmem : k ∈ data.map Prod.fst := mem_sortStrings hk
      rcases List.mem_map.mp hmem with ⟨kv, hkv, rfl⟩
      exact renderEntry_noEsc hc hdata (hdata kv hkv).1
    · rw [hc]; decide
    · decide
    · split
      · exact noEsc_append (writeStack_noEsc hc hstack) (by decide)
      · decide

/-- With color on, the severity label is wrapped in its color-on/color-off
pair (the override color when given, else the prefix's color). -/
theorem output_label_wrapped {l : Logger} (hcol : l.color = true) (hq : l.quiet = false)
    (s : AlignState) (pfx : Prefix) (data : String) (isErr : Bool) (pco : Option Color)
    (timeStr stack : String) :
    containsSub (writtenBytes (output l s pfx data isErr pco timeStr stack))
      (mixer (toPrefix pfx.text) (pco.getD pfx.color)) := by
  refine ⟨nameSegment l s.maxNameSize,
    spaces (s.maxPrefixSize - golen pfx.text) ++ (" " ++
      ((if l.timestamp then writeTime l timeStr else "") ++
        (payload data ++ (if pfx.file then writeStack l stack else "")))), ?_⟩
  rcases pco with _ | c
  · simp [output, writtenBytes, writePrefix, IsQuiet, hq, hcol, String.append_assoc]
  · simp [output, writtenBytes, writePrefix, IsQuiet, hq, hcol, String.append_assoc]

/-- C6 counterexample: a map render with a per-key color override on a
color-disabled logger does emit ANSI escape bytes — `outputMap` writes the
override color without consulting the color flag, and every HTTP method
call passes such an override. -/
theorem color_off_escape_counterexample :
    ({ } : Logger).color = false
    ∧ ¬ noEsc (writtenBytes
        ((GetMethod { } ⟨0, 7⟩ [("uri", GoVal.scalar "/x")] 200 "" "").2)) := by decide

/-- C6 (amended): with color disabled, free-form renders and map renders
without a per-key override contain no ANSI escape bytes (given ESC-free
inputs); with color enabled, the severity label is wrapped in a
color-on/color-off pair; but a map render with a per-key color override —
as issued by every HTTP method call — writes the override sequence even
with color disabled. -/
theorem color_toggle_behaviour :
    (∀ (l : Logger) (s : AlignState) (pfx : Prefix) (data : String) (isErr : Bool)
       (pco : Option Color) (timeStr stack : String),
       l.color = false → noEsc l.name → (∀ f, l.nameFormatter = some f → noEsc f) →
       noEsc pfx.text → noEsc data → noEsc timeStr → noEsc stack →
       noEsc (writtenBytes (output l s pfx data isErr pco timeStr stack)))
    ∧ (∀ (l : Logger) (s : AlignState) (pfx : Prefix) (data : List (String × GoVal))
       (isErr : Bool) (pco : Option Color) (timeStr stack : String),
       l.color = false → noEsc l.name → (∀ f, l.nameFormatter = some f → noEsc f) →
       noEsc pfx.text → (∀ kv ∈ data, noEsc kv.1 ∧ valNoEsc kv.2) →
       noEsc timeStr → noEsc stack →
       noEsc (writtenBytes (outputMap l s pfx data isErr pco none timeStr stack)))
    ∧ (∀ (l : Logger) (s : AlignState) (pfx : Prefix) (data : String) (isErr : Bool)
       (pco : Option Color) (timeStr stack : String),
       l.color = true → l.quiet = false →
       containsSub (writtenBytes (output l s pfx data isErr pco timeStr stack))
         (mixer (toPrefix pfx.text) (pco.getD pfx.color)))
    ∧ ¬ noEsc (writtenBytes
        ((ensureStatusKey { } ⟨0, 7⟩ [] 503 (prefixFor HttpPrefixes "POST") "" "").2)) :=
  ⟨fun l s pfx data isErr pco timeStr stack hc hname hfmt htext hd htime hstack =>
     output_noEsc hc hname hfmt htext hd htime hstack s isErr pco,
   fun l s pfx data isErr pco timeStr stack hc hname hfmt htext hdata htime hstack =>
     outputMap_noEsc hc hname hfmt htext hdata htime hstack s isErr pco,
   fun l s pfx data isErr pco timeStr stack hcol hq =>
     output_label_wrapped hcol hq s pfx data isErr pco timeStr stack,
   by decide⟩

/-- Witness: the color-toggle theorem's no-escape part at a concrete
color-disabled logger and Info render. -/
theorem color_toggle_behaviour_witness :
    ({ } : Logger).color = false
    ∧ noEsc (writtenBytes
        (output { } ⟨0, 5⟩ (prefixFor Prefixes "INFO") "hi" false none "" "")) :=
  ⟨rfl,
   color_toggle_behaviour.1 { } ⟨0, 5⟩ (prefixFor Prefixes "INFO") "hi" false none "" ""
     rfl (by decide) (fun f h => nomatch h) (by decide) (by decide) (by decide) (by decide)⟩

end FancyLog
